import Mathlib

/-
Shallow embedding of the core of the PCO → DiGiCo snapshot builder
(`src/GUI.py`): the Sequence Builder (`App._collect_preview_rows`), the
Offset Policy (lines 542–549), the Time Bucket Normalizer
(`App.on_load_plan_times`, lines 482–503) and the Command Emitter
(`App.on_send`, lines 645–659).

Conventions of the embedding:
* Python strings are Lean `String`s; Python `None`-able attribute reads
  become `Option String` fields.
* Python truthiness on strings (`s or d`) is modelled by `pyOrStr` /
  `pyOrOpt` (empty string and `None` are falsy).
* Python `int(...)` on an already-stripped string is modelled by `pyInt`
  (optional sign followed by decimal digits; exotic forms such as
  numeric-literal underscores or non-ASCII digits are not modelled — no
  claim depends on them).
* Machine integers need no modular arithmetic here: Python integers are
  unbounded and every quantity in scope is a small count/index.
-/

/-! ### Python string / int helpers -/

/-- Python `s or default` for a string `s`: the empty string is falsy. -/
def pyOrStr (a b : String) : String :=
  if a = "" then b else a

/-- Python `d.get(k) or default` where the lookup yields `None` or a
string: both `None` and `""` are falsy. -/
def pyOrOpt (a : Option String) (b : String) : String :=
  match a with
  | none => b
  | some s => if s = "" then b else s

/-- Accumulator loop for a run of decimal digits: fails on the first
non-digit character. -/
def parseDigitsAux : List Char → Nat → Option Nat
  | [], acc => some acc
  | c :: cs, acc =>
    if c.isDigit then parseDigitsAux cs (acc * 10 + (c.toNat - 48)) else none

/-- Python `int(s)` on a whitespace-stripped string: optional sign, then a
nonempty run of decimal digits; anything else raises `ValueError`
(modelled as `none`). -/
def pyInt (s : String) : Option Int :=
  match s.data with
  | [] => none
  | c :: cs =>
    if c = '-' then
      match cs with
      | [] => none
      | _ => (parseDigitsAux cs 0).map (fun n => -(n : Int))
    else if c = '+' then
      match cs with
      | [] => none
      | _ => (parseDigitsAux cs 0).map (fun n => (n : Int))
    else (parseDigitsAux (c :: cs) 0).map (fun n => (n : Int))

/-- Python `str.strip()`: drop whitespace characters at both ends. -/
def pyStrip (s : String) : String :=
  String.mk (((s.data.dropWhile Char.isWhitespace).reverse.dropWhile Char.isWhitespace).reverse)

/-! ### Offset Policy (`GUI.py` lines 542–549)

```
has_existing = self.chk_has_existing.get()
try:
    existing_count = int(self.var_existing_count.get().strip() or "0")
except Exception:
    existing_count = 0
if existing_count < 0:
    existing_count = 0
snapshot_offset = existing_count if has_existing else 0
```
-/

/-- The string actually handed to `int(...)`: stripped, with the empty
string replaced by `"0"`. -/
def normalizedCount (countStr : String) : String :=
  pyOrStr (pyStrip countStr) "0"

/-- The resolved snapshot offset (`snapshot_offset`). -/
def resolveOffset (has_existing : Bool) (countStr : String) : Nat :=
  let parsed : Int := (pyInt (normalizedCount countStr)).getD 0
  let clamped : Int := if parsed < 0 then 0 else parsed
  if has_existing then clamped.toNat else 0

/-- Claim C9: the resolved offset is 0 whenever the "console already has
snapshots" flag is false, regardless of the declared count; when the flag
is true, the offset equals the count parsed as an integer, except that a
parse failure or a negative value yields 0. -/
theorem offset_policy_resolves (countStr : String) :
    resolveOffset false countStr = 0 ∧
    (pyInt (normalizedCount countStr) = none → resolveOffset true countStr = 0) ∧
    (∀ v : Int, pyInt (normalizedCount countStr) = some v → v < 0 →
      resolveOffset true countStr = 0) ∧
    (∀ v : Int, pyInt (normalizedCount countStr) = some v → 0 ≤ v →
      (resolveOffset true countStr : Int) = v) := by
  refine ⟨rfl, ?_, ?_, ?_⟩
  · intro h
    simp [resolveOffset, h]
  · intro v hv hneg
    simp [resolveOffset, hv, hneg]
  · intro v hv hpos
    have hneg : ¬ v < 0 := not_lt.mpr hpos
    simp [resolveOffset, hv, hneg, Int.toNat_of_nonneg hpos]

/-- Witness for C9: the three offset regimes at concrete declared counts
`"12"`, `"abc"` and `"-5"`. -/
theorem offset_policy_resolves_witness :
    resolveOffset false "abc" = 0 ∧
    resolveOffset true "abc" = 0 ∧
    resolveOffset true "-5" = 0 ∧
    (resolveOffset true "12" : Int) = 12 :=
  ⟨(offset_policy_resolves "abc").1,
   (offset_policy_resolves "abc").2.1 (by decide),
   (offset_policy_resolves "-5").2.2.1 (-5) (by decide) (by decide),
   (offset_policy_resolves "12").2.2.2 12 (by decide) (by decide)⟩

/-! ### Data model of the Sequence Builder (`App._collect_preview_rows`)

The planning data reaches the builder as already-parsed JSON:API documents
(`self.items_data`); the embedding gives each resource the fields the
builder reads.  `attributes`/`id` are present on every resource (JSON:API
shape), optional attribute reads become `Option` fields. -/

/-- One record of `items_data.get("included", [])`.  `rtype` is the
resource's `"type"` discriminator; the remaining fields are the attribute
and relationship reads performed by the builder. -/
structure IncludedRec where
  rtype : String
  exclude : Bool
  live_start_at : Option String
  starts_at : Option String
  plan_time_id : Option String
  item_id : Option String
deriving DecidableEq

/-- One record of `items_data["data"]` (a plan item). -/
structure PlanItem where
  id : String
  item_type : Option String
  title : Option String
deriving DecidableEq

/-- The loaded `self.items_data` document: `data` plus the
`included` array (`.get("included", [])` makes a missing key `[]`). -/
structure ItemsDoc where
  data : List PlanItem
  included : List IncludedRec
deriving DecidableEq

/-- One tuple of `self.plan_times` (`(pt["id"], label, starts_at_dt)`),
restricted to the two components the builder reads.  The `label` is the
string `format_time_label` produced at load time. -/
structure PlanTimeEntry where
  id : String
  label : String
deriving DecidableEq

/-- One emitted preview row (`{"seq", "name", "snap_index"}`). -/
structure PreviewRow where
  seq : Nat
  name : String
  snap_index : Nat
deriving DecidableEq

/-! ### Sequence Builder helpers -/

/-- `lbl or "(default)"`: the key under which a plan-time label is
stored and looked up. -/
def eff_label (lbl : String) : String := pyOrStr lbl "(default)"

/-- One step of building `time_id_by_label` via
`time_id_by_label.setdefault(key, []).append(tid)`: the ordered multimap
keeps keys in first-insertion order and appends ids at the end of the
key's list. -/
def mmAdd (m : List (String × List String)) (key tid : String) :
    List (String × List String) :=
  match m with
  | [] => [(key, [tid])]
  | (k, v) :: rest =>
    if k = key then (k, v ++ [tid]) :: rest else (k, v) :: mmAdd rest key tid

/-- `time_id_by_label`: label → list of plan-time ids, built by one pass
over `self.plan_times` (Python dicts preserve key insertion order). -/
def time_id_by_label (plan_times : List PlanTimeEntry) :
    List (String × List String) :=
  plan_times.foldl (fun m e => mmAdd m (eff_label e.label) e.id) []

/-- `time_id_by_label.get(key, [])`. -/
def mmGet (m : List (String × List String)) (key : String) : List String :=
  match m.find? (fun p => p.1 == key) with
  | some p => p.2
  | none => []

/-- `selected_time_ids`: for each selected label in order, all ids the
label resolves to. -/
def selected_time_ids (plan_times : List PlanTimeEntry)
    (labels : List String) : List String :=
  labels.flatMap (fun lbl => mmGet (time_id_by_label plan_times) (eff_label lbl))

/-- The per-item-time sort key
`attrs.get("live_start_at") or attrs.get("starts_at") or ""`. -/
def ordering_key (it : IncludedRec) : String :=
  pyOrOpt it.live_start_at (pyOrOpt it.starts_at "")

/-- The bucket `by_time[tid]` for a selected time id `tid`: the included
records that are `ItemTime`s and whose `relationships.plan_time.data.id`
is `tid`, in `included` order (the source bins them in one pass over
`included_item_times`, which preserves that order). -/
def by_time (included : List IncludedRec) (tid : String) : List IncludedRec :=
  included.filter (fun it => it.rtype == "ItemTime" && it.plan_time_id == some tid)

/-- The code points of a string: Python compares strings lexicographically
by code point. -/
def codepoints (s : String) : List Nat := s.data.map Char.toNat

/-- Lexicographic `≤` on code-point sequences (Python string `<=`). -/
def lexLeB : List Nat → List Nat → Bool
  | [], _ => true
  | _ :: _, [] => false
  | a :: as, b :: bs => if a < b then true else if b < a then false else lexLeB as bs

/-- The comparison `ordering_key a <= ordering_key b` used by the bucket
sort. -/
def key_le (a b : IncludedRec) : Prop :=
  lexLeB (codepoints (ordering_key a)) (codepoints (ordering_key b)) = true

instance key_le_decidable : DecidableRel key_le := fun _ _ => instDecidableEqBool _ _

/-- `arr.sort(key=ordering_key)`: Python's sort is stable, so it computes
the stable insertion sort by `ordering_key` under Python's code-point
string comparison. -/
def sort_bucket (l : List IncludedRec) : List IncludedRec :=
  List.insertionSort key_le l

/-- `'"'.replace` target: the single-quote character (code point 39). -/
def squote : Char := Char.ofNat 39

/-- `title.replace('"', "'")`: every double-quote becomes a single
quote. -/
def replace_quotes (s : String) : String :=
  String.mk (s.data.map (fun c => if c = '"' then squote else c))

/-- `(item_attrs.get("title") or "Untitled Cue").replace('"', "'")`. -/
def sanitize_title (title : Option String) : String :=
  replace_quotes (pyOrOpt title "Untitled Cue")

/-- The per-item-time step of the emission loop (`GUI.py` lines 574–590):
`none` when the entry is skipped (`exclude` truthy, falsy item reference,
unresolved plan item, or `item_type` outside `("item", "song")`),
otherwise the sanitized title of the resolved plan item. -/
def emit_name (plan_items : List PlanItem) (it : IncludedRec) : Option String :=
  if it.exclude then none
  else
    match it.item_id with
    | none => none
    | some iid =>
      if iid = "" then none
      else
        match plan_items.find? (fun p => p.id == iid) with
        | none => none
        | some item =>
          if item.item_type == some "item" || item.item_type == some "song" then
            some (sanitize_title item.title)
          else none

/-- The flattened list of emitted names: for each selected label in
selection order, for each id the label resolves to (first-encounter
order), the bucket's item-times sorted by `ordering_key`, each either
skipped or contributing one sanitized name. -/
def collect_names (doc : ItemsDoc) (plan_times : List PlanTimeEntry)
    (labels : List String) : List String :=
  labels.flatMap (fun lbl =>
    (mmGet (time_id_by_label plan_times) (eff_label lbl)).flatMap (fun tid =>
      (sort_bucket (by_time doc.included tid)).filterMap (emit_name doc.data)))

/-- The index-assignment loop (`for i, row in enumerate(rows)`): the i-th
emitted name becomes `{"seq": i+1, "name": name, "snap_index": offset+i}`. -/
def build_rows (names : List String) (offset : Nat) : List PreviewRow :=
  names.enum.map (fun p => ⟨p.1 + 1, p.2, offset + p.1⟩)

/-! ### App state and `_collect_preview_rows` -/

/-- The slice of `App` state that `_collect_preview_rows` reads.
`has_items_attr`/`has_times_attr` model `hasattr(self, "items_data")` /
`hasattr(self, "times_data")`; `items_data = none` models
`self.items_data is None` (the value `__init__` assigns before any load).
`selected_labels` is the ordered list of labels of the selected listbox
rows (`[self.lst_times.get(i) for i in sel]`). -/
structure AppState where
  has_items_attr : Bool
  has_times_attr : Bool
  selected_labels : List String
  plan_times : List PlanTimeEntry
  chk_has_existing : Bool
  var_existing_count : String
  items_data : Option ItemsDoc
deriving DecidableEq

/-- Outcome of `_collect_preview_rows`: an early `([], 0, msg)` error
return, an uncaught exception (`.crash`, from `None.get(...)` when the
data was never loaded), or `(rows, snapshot_offset, None)`. -/
inductive CollectResult
  | err (msg : String)
  | crash
  | ok (rows : List PreviewRow) (offset : Nat)
deriving DecidableEq

/-- `App._collect_preview_rows` (`GUI.py` lines 521–596). -/
def collect_preview_rows (s : AppState) : CollectResult :=
  if !s.has_items_attr || !s.has_times_attr then .err "Load plan times first."
  else if s.selected_labels = [] then .err "Select at least one plan time."
  else
    match s.items_data with
    | none => .crash
    | some doc =>
      let offset := resolveOffset s.chk_has_existing s.var_existing_count
      .ok (build_rows (collect_names doc s.plan_times s.selected_labels) offset) offset

/-- The fields `__init__` gives the state before any user action
(`GUI.py` lines 164–172, 269, 278): the `items_data`/`times_data`
attributes exist but hold `None`, nothing is selected, no plan times are
loaded. -/
def init_state : AppState :=
  { has_items_attr := true
    has_times_attr := true
    selected_labels := []
    plan_times := []
    chk_has_existing := false
    var_existing_count := "0"
    items_data := none }

/-! ### A concrete worked example (used by the witnesses)

One plan with two identically labelled plan times `t1`, `t2`; the
`included` array contains, in order: a plain cue at `10:05` in `t1`, an
excluded item-time, an item-time with a falsy item reference, one whose
item id resolves to no plan item, one resolving to a non-cue (`header`)
item, a non-`ItemTime` resource, and a song at `10:00` in `t2`. -/

/-- Example loaded document. -/
def exDoc : ItemsDoc :=
  { data :=
      [ ⟨"i1", some "item", some "Welcome"⟩
      , ⟨"i3", some "song", some "Opening Song"⟩
      , ⟨"i4", some "header", some "Header"⟩ ]
    included :=
      [ ⟨"ItemTime", false, none, some "10:05", some "t1", some "i1"⟩
      , ⟨"ItemTime", true,  none, none, some "t1", some "i3"⟩
      , ⟨"ItemTime", false, none, none, some "t1", none⟩
      , ⟨"ItemTime", false, none, none, some "t1", some "i9"⟩
      , ⟨"ItemTime", false, none, none, some "t1", some "i4"⟩
      , ⟨"Song",     false, none, none, some "t1", some "i1"⟩
      , ⟨"ItemTime", false, some "10:00", none, some "t2", some "i3"⟩ ] }

/-- Example app state after a successful load, with one label selected
that two plan times share, "has existing snapshots" on and a declared
count of 12. -/
def ex_state : AppState :=
  { has_items_attr := true
    has_times_attr := true
    selected_labels := ["9:00 AM"]
    plan_times := [⟨"t1", "9:00 AM"⟩, ⟨"t2", "9:00 AM"⟩]
    chk_has_existing := true
    var_existing_count := "12"
    items_data := some exDoc }

/-- The rows the example state previews. -/
def ex_rows : List PreviewRow :=
  [⟨1, "Welcome", 12⟩, ⟨2, "Opening Song", 13⟩]

/-! ### Helper lemmas about `build_rows` and the success branch -/

theorem build_rows_length (names : List String) (offset : Nat) :
    (build_rows names offset).length = names.length := by
  simp [build_rows]

theorem build_rows_getElem (names : List String) (offset i : Nat)
    (h1 : i < names.length) (h2 : i < (build_rows names offset).length) :
    (build_rows names offset)[i] = ⟨i + 1, names[i], offset + i⟩ := by
  simp [build_rows]

/-- Inversion of the success branch: a build that returns rows did pass
both guards, found a loaded document, and produced exactly the
enumeration of the collected names at the resolved offset. -/
theorem collect_preview_rows_ok_inv (s : AppState) (rows : List PreviewRow)
    (offset : Nat) (h : collect_preview_rows s = .ok rows offset) :
    ∃ doc : ItemsDoc, s.items_data = some doc ∧
      offset = resolveOffset s.chk_has_existing s.var_existing_count ∧
      rows = build_rows (collect_names doc s.plan_times s.selected_labels) offset := by
  unfold collect_preview_rows at h
  split at h
  · exact CollectResult.noConfusion h
  · split at h
    · exact CollectResult.noConfusion h
    · split at h
      · exact CollectResult.noConfusion h
      · next doc hdoc =>
        injection h with hrows hoff
        subst hoff
        exact ⟨doc, hdoc, rfl, hrows.symm⟩

/-- Claim C1: for every successful build, the emitted rows' `snap_index`
values form a contiguous run starting at the resolved offset, strictly
increasing by 1 over emitted rows only, and every row's `seq` equals its
1-based emission position, i.e. `seq = snap_index - offset + 1`. -/
theorem snap_indices_contiguous (s : AppState) (rows : List PreviewRow)
    (offset : Nat) (h : collect_preview_rows s = .ok rows offset)
    (i : Nat) (hi : i < rows.length) :
    rows[i].snap_index = offset + i ∧ rows[i].seq = i + 1 ∧
    rows[i].seq = rows[i].snap_index - offset + 1 := by
  obtain ⟨doc, _, _, hrows⟩ := collect_preview_rows_ok_inv s rows offset h
  subst hrows
  have hlen : i < (collect_names doc s.plan_times s.selected_labels).length := by
    simpa [build_rows_length] using hi
  rw [build_rows_getElem _ _ _ hlen hi]
  refine ⟨rfl, rfl, ?_⟩
  show i + 1 = offset + i - offset + 1
  omega

/-- Witness for C1 at the worked example (row 1, offset 12). -/
theorem snap_indices_contiguous_witness :
    ex_rows[1].snap_index = 12 + 1 ∧ ex_rows[1].seq = 1 + 1 ∧
    ex_rows[1].seq = ex_rows[1].snap_index - 12 + 1 :=
  snap_indices_contiguous ex_state ex_rows 12 (by decide) 1 (by decide)

/-- Claim C5 (refuted — code bug): the source intends the error
`"Load plan times first."` exactly when the item/time data has not been
loaded, but `__init__` pre-assigns `self.items_data = None` and
`self.times_data = None`, so the `hasattr` guard can never fire after
initialization: with nothing loaded the builder instead reports the
selection error (empty selection) or raises `AttributeError`
(non-empty selection), never the load-first error. -/
theorem load_first_guard_dead :
    collect_preview_rows init_state = .err "Select at least one plan time." ∧
    collect_preview_rows { init_state with selected_labels := ["9:00 AM"] } = .crash ∧
    ∀ s : AppState, s.has_items_attr = true → s.has_times_attr = true →
      collect_preview_rows s ≠ .err "Load plan times first." := by
  refine ⟨by decide, by decide, ?_⟩
  intro s h1 h2
  unfold collect_preview_rows
  rw [h1, h2]
  simp only [Bool.not_true, Bool.or_self, Bool.false_eq_true, if_false]
  split
  · intro hc
    injection hc with hmsg
    exact absurd hmsg (by decide)
  · split
    · intro hc
      exact CollectResult.noConfusion hc
    · intro hc
      exact CollectResult.noConfusion hc

/-- Witness for C5's universally quantified part at the initial state. -/
theorem load_first_guard_dead_witness :
    collect_preview_rows init_state ≠ .err "Load plan times first." :=
  load_first_guard_dead.2.2 init_state rfl rfl

/-! ### Provenance of emitted names (helpers for C2 and C10) -/

/-- Inversion of one emission step: a name is emitted only from a
non-excluded item-time with a truthy item reference that resolves to a
plan item of a cue type, and the name is that item's sanitized title. -/
theorem emit_name_eq_some (plan_items : List PlanItem) (it : IncludedRec)
    (n : String) (h : emit_name plan_items it = some n) :
    it.exclude = false ∧
    ∃ iid, it.item_id = some iid ∧ iid ≠ "" ∧
    ∃ item, plan_items.find? (fun p => p.id == iid) = some item ∧
      (item.item_type = some "item" ∨ item.item_type = some "song") ∧
      n = sanitize_title item.title := by
  unfold emit_name at h
  split at h
  · exact Option.noConfusion h
  · next hex =>
    refine ⟨Bool.of_not_eq_true hex, ?_⟩
    split at h
    · exact Option.noConfusion h
    · next iid hiid =>
      split at h
      · exact Option.noConfusion h
      · next hne =>
        split at h
        · exact Option.noConfusion h
        · next item hfind =>
          split at h
          · next htype =>
            injection h with hn
            refine ⟨iid, hiid, hne, item, hfind, ?_, hn.symm⟩
            simpa [Bool.or_eq_true, beq_iff_eq] using htype
          · exact Option.noConfusion h

/-- Each collected name is emitted from some record of the `included`
array. -/
theorem mem_collect_names (doc : ItemsDoc) (plan_times : List PlanTimeEntry)
    (labels : List String) (n : String)
    (h : n ∈ collect_names doc plan_times labels) :
    ∃ it ∈ doc.included, emit_name doc.data it = some n := by
  unfold collect_names at h
  rw [List.mem_flatMap] at h
  obtain ⟨lbl, -, h⟩ := h
  rw [List.mem_flatMap] at h
  obtain ⟨tid, -, h⟩ := h
  rw [List.mem_filterMap] at h
  obtain ⟨it, hit, hemit⟩ := h
  have hmem : it ∈ by_time doc.included tid :=
    (List.perm_insertionSort key_le (by_time doc.included tid)).mem_iff.mp hit
  exact ⟨it, List.mem_of_mem_filter hmem, hemit⟩

/-- Every row's name is one of the collected names. -/
theorem mem_build_rows (names : List String) (offset : Nat) (row : PreviewRow)
    (h : row ∈ build_rows names offset) : row.name ∈ names := by
  unfold build_rows at h
  rw [List.mem_map] at h
  obtain ⟨p, hp, heq⟩ := h
  have hsnd : p.2 ∈ names := by
    have hm := List.mem_map_of_mem Prod.snd hp
    rwa [List.enum_map_snd] at hm
  cases heq
  exact hsnd

/-- `replace_quotes` never turns a nonempty title into an empty name. -/
theorem replace_quotes_ne_empty (s : String) (h : s ≠ "") :
    replace_quotes s ≠ "" := by
  intro hc
  apply h
  have h2 : s.data.map (fun c => if c = '"' then squote else c) = [] :=
    congrArg String.data hc
  have h3 : s.data = [] := List.map_eq_nil_iff.mp h2
  cases s with
  | mk d => cases h3; rfl

/-- A sanitized title is never the empty string. -/
theorem sanitize_title_ne_empty (title : Option String) :
    sanitize_title title ≠ "" := by
  match title with
  | none => decide
  | some t =>
    by_cases ht : t = ""
    · subst ht
      decide
    · show replace_quotes (if t = "" then "Untitled Cue" else t) ≠ ""
      rw [if_neg ht]
      exact replace_quotes_ne_empty _ ht

/-- With both attributes present, a loaded document and a nonempty
selection, the build always succeeds and produces the enumeration of the
collected names at the resolved offset. -/
theorem collect_preview_rows_ok (s : AppState) (doc : ItemsDoc)
    (h1 : s.has_items_attr = true) (h2 : s.has_times_attr = true)
    (h3 : s.items_data = some doc) (h4 : s.selected_labels ≠ []) :
    collect_preview_rows s =
      .ok (build_rows (collect_names doc s.plan_times s.selected_labels)
            (resolveOffset s.chk_has_existing s.var_existing_count))
          (resolveOffset s.chk_has_existing s.var_existing_count) := by
  unfold collect_preview_rows
  rw [h1, h2, h3]
  rw [if_neg (show ¬((!true || !true) = true) by decide), if_neg h4]

/-- Claim C2: no row of a build comes from an excluded item-time, from a
falsy or dangling item reference, or from a plan item whose `item_type`
is outside `("item", "song")` — and the build still succeeds (such
entries are silently skipped). -/
theorem skipped_entries_not_emitted (s : AppState) (doc : ItemsDoc)
    (h1 : s.has_items_attr = true) (h2 : s.has_times_attr = true)
    (h3 : s.items_data = some doc) (h4 : s.selected_labels ≠ []) :
    (∃ rows offset, collect_preview_rows s = .ok rows offset) ∧
    (∀ rows offset, collect_preview_rows s = .ok rows offset →
      ∀ row ∈ rows, ∃ it ∈ doc.included,
        emit_name doc.data it = some row.name ∧
        it.exclude = false ∧
        ∃ iid, it.item_id = some iid ∧ iid ≠ "" ∧
        ∃ item, doc.data.find? (fun p => p.id == iid) = some item ∧
          (item.item_type = some "item" ∨ item.item_type = some "song")) := by
  constructor
  · exact ⟨_, _, collect_preview_rows_ok s doc h1 h2 h3 h4⟩
  · intro rows offset hok row hrow
    obtain ⟨doc', hdoc', -, hrows⟩ := collect_preview_rows_ok_inv s rows offset hok
    rw [h3] at hdoc'
    injection hdoc' with hdoc'
    subst hdoc'
    subst hrows
    have hname := mem_build_rows _ _ _ hrow
    obtain ⟨it, hit, hemit⟩ := mem_collect_names _ _ _ _ hname
    obtain ⟨hex, iid, hiid, hne, item, hfind, htype, -⟩ :=
      emit_name_eq_some _ _ _ hemit
    exact ⟨it, hit, hemit, hex, iid, hiid, hne, item, hfind, htype⟩

/-- Witness for C2 at the worked example: the build succeeds although the
`included` array contains an excluded entry, a falsy reference, a
dangling reference and a non-cue item, and every emitted row traces back
to a passing entry. -/
theorem skipped_entries_not_emitted_witness :
    (∃ rows offset, collect_preview_rows ex_state = .ok rows offset) ∧
    (∀ rows offset, collect_preview_rows ex_state = .ok rows offset →
      ∀ row ∈ rows, ∃ it ∈ exDoc.included,
        emit_name exDoc.data it = some row.name ∧
        it.exclude = false ∧
        ∃ iid, it.item_id = some iid ∧ iid ≠ "" ∧
        ∃ item, exDoc.data.find? (fun p => p.id == iid) = some item ∧
          (item.item_type = some "item" ∨ item.item_type = some "song")) :=
  skipped_entries_not_emitted ex_state exDoc rfl rfl rfl (by decide)

/-- Claim C10: every emitted row's name is the resolved plan item's title
with each double-quote character replaced by a single-quote character,
defaulting to `"Untitled Cue"` when the title is absent or empty, so an
emitted row's name is never empty. -/
theorem row_names_sanitized (s : AppState) (doc : ItemsDoc)
    (rows : List PreviewRow) (offset : Nat) (hdoc : s.items_data = some doc)
    (h : collect_preview_rows s = .ok rows offset) :
    (∀ row ∈ rows, (∃ item ∈ doc.data, row.name = sanitize_title item.title) ∧
      row.name ≠ "") ∧
    sanitize_title none = "Untitled Cue" ∧
    sanitize_title (some "") = "Untitled Cue" ∧
    ∀ t : String, t ≠ "" → sanitize_title (some t) = replace_quotes t := by
  refine ⟨?_, by decide, by decide, ?_⟩
  · intro row hrow
    obtain ⟨doc', hdoc', -, hrows⟩ := collect_preview_rows_ok_inv s rows offset h
    rw [hdoc] at hdoc'
    injection hdoc' with hdoc'
    subst hdoc'
    subst hrows
    have hname := mem_build_rows _ _ _ hrow
    obtain ⟨it, -, hemit⟩ := mem_collect_names _ _ _ _ hname
    obtain ⟨-, iid, -, -, item, hfind, -, hsan⟩ := emit_name_eq_some _ _ _ hemit
    refine ⟨⟨item, List.mem_of_find?_eq_some hfind, hsan⟩, ?_⟩
    rw [hsan]
    exact sanitize_title_ne_empty _
  · intro t ht
    show replace_quotes (if t = "" then "Untitled Cue" else t) = replace_quotes t
    rw [if_neg ht]

/-- Witness for C10 at the worked example. -/
theorem row_names_sanitized_witness :
    (∀ row ∈ ex_rows, (∃ item ∈ exDoc.data, row.name = sanitize_title item.title) ∧
      row.name ≠ "") ∧
    sanitize_title none = "Untitled Cue" ∧
    sanitize_title (some "") = "Untitled Cue" ∧
    (∀ t : String, t ≠ "" → sanitize_title (some t) = replace_quotes t) :=
  row_names_sanitized ex_state exDoc ex_rows 12 rfl (by decide)

/-! ### Order facts about the bucket comparison (for C7) -/

theorem lexLeB_refl (a : List Nat) : lexLeB a a = true := by
  induction a with
  | nil => rfl
  | cons x xs ih => simp [lexLeB, lt_irrefl, ih]

theorem lexLeB_cons_iff (x y : Nat) (xs ys : List Nat) :
    lexLeB (x :: xs) (y :: ys) = true ↔
      x < y ∨ (x = y ∧ lexLeB xs ys = true) := by
  show (if x < y then true else if y < x then false else lexLeB xs ys) = true ↔ _
  split_ifs with h1 h2
  · exact iff_of_true rfl (Or.inl h1)
  · refine iff_of_false (by simp) ?_
    rintro (h | ⟨h, -⟩) <;> omega
  · have hxy : x = y := by omega
    subst hxy
    constructor
    · intro h
      exact Or.inr ⟨rfl, h⟩
    · rintro (h | ⟨-, h⟩)
      · omega
      · exact h

theorem lexLeB_total (a b : List Nat) :
    lexLeB a b = true ∨ lexLeB b a = true := by
  induction a generalizing b with
  | nil => exact Or.inl rfl
  | cons x xs ih =>
    cases b with
    | nil => exact Or.inr rfl
    | cons y ys =>
      rcases Nat.lt_trichotomy x y with h | h | h
      · exact Or.inl ((lexLeB_cons_iff ..).mpr (Or.inl h))
      · subst h
        rcases ih ys with h2 | h2
        · exact Or.inl ((lexLeB_cons_iff ..).mpr (Or.inr ⟨rfl, h2⟩))
        · exact Or.inr ((lexLeB_cons_iff ..).mpr (Or.inr ⟨rfl, h2⟩))
      · exact Or.inr ((lexLeB_cons_iff ..).mpr (Or.inl h))

theorem lexLeB_trans (a b c : List Nat) (h1 : lexLeB a b = true)
    (h2 : lexLeB b c = true) : lexLeB a c = true := by
  induction a generalizing b c with
  | nil => rfl
  | cons x xs ih =>
    cases b with
    | nil => exact absurd h1 (by simp [lexLeB])
    | cons y ys =>
      cases c with
      | nil => exact absurd h2 (by simp [lexLeB])
      | cons z zs =>
        rw [lexLeB_cons_iff] at h1 h2 ⊢
        rcases h1 with h1 | ⟨hxy, h1⟩
        · rcases h2 with h2 | ⟨hyz, -⟩
          · exact Or.inl (by omega)
          · exact Or.inl (by omega)
        · rcases h2 with h2 | ⟨hyz, h2⟩
          · exact Or.inl (by omega)
          · exact Or.inr ⟨by omega, ih ys zs h1 h2⟩

theorem key_le_refl (a : IncludedRec) : key_le a a := lexLeB_refl _

theorem key_le_of_eq (x y : IncludedRec)
    (h : ordering_key x = ordering_key y) : key_le x y := by
  unfold key_le
  rw [h]
  exact lexLeB_refl _

instance key_le_total : IsTotal IncludedRec key_le :=
  ⟨fun _ _ => lexLeB_total _ _⟩

instance key_le_trans : IsTrans IncludedRec key_le :=
  ⟨fun _ _ _ => lexLeB_trans _ _ _⟩

/-! ### Stability of the bucket sort (for C7) -/

theorem filter_key_orderedInsert (k : String) (x : IncludedRec)
    (l : List IncludedRec) :
    (List.orderedInsert key_le x l).filter (fun y => ordering_key y == k) =
      if ordering_key x == k then
        x :: l.filter (fun y => ordering_key y == k)
      else l.filter (fun y => ordering_key y == k) := by
  induction l with
  | nil =>
    show List.filter _ [x] = _
    rw [List.filter_cons, List.filter_nil]
  | cons y ys ih =>
    by_cases hr : key_le x y
    · rw [List.orderedInsert_of_le key_le ys hr, List.filter_cons]
    · have hstep : List.orderedInsert key_le x (y :: ys) =
          y :: List.orderedInsert key_le x ys := by
        simp [List.orderedInsert, hr]
      rw [hstep]
      by_cases hpx : (ordering_key x == k) = true
      · have hpy : (ordering_key y == k) = false := by
          rw [Bool.eq_false_iff]
          intro hc
          exact hr (key_le_of_eq x y (by rw [eq_of_beq hpx, eq_of_beq hc]))
        simp [List.filter_cons, ih, hpx, hpy]
      · simp [List.filter_cons, ih, hpx]

theorem filter_key_insertionSort (k : String) (l : List IncludedRec) :
    (List.insertionSort key_le l).filter (fun y => ordering_key y == k) =
      l.filter (fun y => ordering_key y == k) := by
  induction l with
  | nil => rfl
  | cons x xs ih =>
    show (List.orderedInsert key_le x (List.insertionSort key_le xs)).filter _ = _
    rw [filter_key_orderedInsert, ih, List.filter_cons]

/-- Claim C7: within each bucket the item-times are sorted ascending by
`ordering_key` (first truthy of `live_start_at`, `starts_at`, `""`,
compared as Python compares strings), the sorted bucket is a permutation
of the original, and the sort is stable: the item-times with any given
`ordering_key` value keep their original relative order. -/
theorem bucket_sort_sorted_stable (l : List IncludedRec) :
    List.Sorted key_le (sort_bucket l) ∧
    List.Perm (sort_bucket l) l ∧
    ∀ k : String, (sort_bucket l).filter (fun y => ordering_key y == k) =
      l.filter (fun y => ordering_key y == k) :=
  ⟨List.sorted_insertionSort key_le l, List.perm_insertionSort key_le l,
   fun k => filter_key_insertionSort k l⟩

/-! ### The label multimap resolves every id of a label (for C8) -/

theorem mmGet_cons_pos (pk : String) (pv : List String)
    (rest : List (String × List String)) (k : String) (h : pk = k) :
    mmGet ((pk, pv) :: rest) k = pv := by
  unfold mmGet
  rw [List.find?_cons_of_pos rest (by simp [h])]

theorem mmGet_cons_neg (pk : String) (pv : List String)
    (rest : List (String × List String)) (k : String) (h : ¬ pk = k) :
    mmGet ((pk, pv) :: rest) k = mmGet rest k := by
  unfold mmGet
  rw [List.find?_cons_of_neg rest (by simp [h])]

theorem mmGet_nil (k : String) : mmGet [] k = [] := rfl

theorem mmGet_mmAdd (m : List (String × List String)) (key tid k : String) :
    mmGet (mmAdd m key tid) k =
      if key = k then mmGet m k ++ [tid] else mmGet m k := by
  induction m with
  | nil =>
    show mmGet [(key, [tid])] k = _
    by_cases h : key = k
    · rw [mmGet_cons_pos _ _ _ _ h, if_pos h, mmGet_nil]
      rfl
    · rw [mmGet_cons_neg _ _ _ _ h, if_neg h]
  | cons p rest ih =>
    obtain ⟨pk, pv⟩ := p
    show mmGet (if pk = key then (pk, pv ++ [tid]) :: rest
                else (pk, pv) :: mmAdd rest key tid) k = _
    by_cases hp : pk = key
    · rw [if_pos hp]
      by_cases hk : pk = k
      · rw [mmGet_cons_pos _ _ _ _ hk, if_pos (hp.symm.trans hk),
          mmGet_cons_pos _ _ _ _ hk]
      · rw [mmGet_cons_neg _ _ _ _ hk, if_neg (fun hc => hk (hp.trans hc)),
          mmGet_cons_neg _ _ _ _ hk]
    · rw [if_neg hp]
      by_cases hk : pk = k
      · rw [mmGet_cons_pos _ _ _ _ hk, if_neg (fun hc => hp (hk.trans hc.symm)),
          mmGet_cons_pos _ _ _ _ hk]
      · rw [mmGet_cons_neg _ _ _ _ hk, ih, mmGet_cons_neg _ _ _ _ hk]

theorem mmGet_time_id_by_label_aux (l : List PlanTimeEntry)
    (m : List (String × List String)) (k : String) :
    mmGet (l.foldl (fun acc e => mmAdd acc (eff_label e.label) e.id) m) k =
      mmGet m k ++ (l.filter (fun e => eff_label e.label == k)).map (fun e => e.id) := by
  induction l generalizing m with
  | nil => simp
  | cons e es ih =>
    rw [List.foldl_cons, ih, mmGet_mmAdd]
    by_cases h : eff_label e.label = k
    · simp [h, List.filter_cons]
    · simp [h, List.filter_cons]

/-- Claim C8: when a selected label is shared by several distinct
plan-time ids, selecting that label once resolves it to every one of
those ids, in the order they were first encountered in the plan-time
list, and each of those buckets contributes its item-times to the build,
concatenated in that order. -/
theorem duplicate_label_resolution (plan_times : List PlanTimeEntry)
    (lbl : String) (s : AppState) (doc : ItemsDoc)
    (h1 : s.has_items_attr = true) (h2 : s.has_times_attr = true)
    (h3 : s.items_data = some doc) (h5 : s.plan_times = plan_times)
    (h6 : s.selected_labels = [lbl]) :
    mmGet (time_id_by_label plan_times) (eff_label lbl) =
      (plan_times.filter (fun e => eff_label e.label == eff_label lbl)).map
        (fun e => e.id) ∧
    collect_preview_rows s =
      .ok (build_rows
            (((plan_times.filter (fun e => eff_label e.label == eff_label lbl)).map
                (fun e => e.id)).flatMap (fun tid =>
              (sort_bucket (by_time doc.included tid)).filterMap
                (emit_name doc.data)))
            (resolveOffset s.chk_has_existing s.var_existing_count))
          (resolveOffset s.chk_has_existing s.var_existing_count) := by
  have hmm : mmGet (time_id_by_label plan_times) (eff_label lbl) =
      (plan_times.filter (fun e => eff_label e.label == eff_label lbl)).map
        (fun e => e.id) := by
    unfold time_id_by_label
    rw [mmGet_time_id_by_label_aux]
    rfl
  refine ⟨hmm, ?_⟩
  have hne : s.selected_labels ≠ [] := by
    rw [h6]
    exact List.cons_ne_nil _ _
  rw [collect_preview_rows_ok s doc h1 h2 h3 hne]
  have hnames : collect_names doc s.plan_times s.selected_labels =
      ((plan_times.filter (fun e => eff_label e.label == eff_label lbl)).map
        (fun e => e.id)).flatMap (fun tid =>
          (sort_bucket (by_time doc.included tid)).filterMap
            (emit_name doc.data)) := by
    rw [h5, h6]
    unfold collect_names
    rw [List.flatMap_cons, List.flatMap_nil, List.append_nil, hmm]
  rw [hnames]

/-- Witness for C8 at the worked example: the single selected label
`"9:00 AM"` resolves to both `t1` and `t2`, and both buckets contribute,
in that order. -/
theorem duplicate_label_resolution_witness :
    mmGet (time_id_by_label ex_state.plan_times) (eff_label "9:00 AM") =
      (ex_state.plan_times.filter
        (fun e => eff_label e.label == eff_label "9:00 AM")).map (fun e => e.id) ∧
    collect_preview_rows ex_state =
      .ok (build_rows
            (((ex_state.plan_times.filter
                (fun e => eff_label e.label == eff_label "9:00 AM")).map
                (fun e => e.id)).flatMap (fun tid =>
              (sort_bucket (by_time exDoc.included tid)).filterMap
                (emit_name exDoc.data)))
            (resolveOffset ex_state.chk_has_existing ex_state.var_existing_count))
          (resolveOffset ex_state.chk_has_existing ex_state.var_existing_count) :=
  duplicate_label_resolution ex_state.plan_times "9:00 AM" ex_state exDoc
    rfl rfl rfl rfl rfl

/-! ### Command Emitter (`App.on_send`, lines 645–659)

The send worker iterates the preview rows; for each row the `try` block
sends the create command, sleeps 0.2 s, sends the rename command, sleeps
again and increments `created`; the `except` handler logs the error and
falls through to the next iteration.  Local exceptions can arise at
either `send_message` call; the sleeps and the log call are assumed not
to raise.  A fault oracle records, per row index, where (if anywhere) a
local exception is raised. -/

/-- The fixed inter-command interval (`time.sleep(0.2)`), in
milliseconds. -/
def inter_command_delay_ms : Nat := 200

/-- One observable step of the emitter: a create command
(address `/Snapshots/New_Snapshot/` + index, payload `0`), a rename
command (address `/Snapshots/Rename_Snapshot/` + index, payload the
name), or a blocking wait. -/
inductive OscEvent
  | create (idx : Nat)
  | sleep (ms : Nat)
  | rename (idx : Nat) (nm : String)
deriving DecidableEq

/-- Where, if anywhere, a local exception interrupts one row's
iteration. -/
inductive RowFault
  | ok
  | fail_create
  | fail_rename
deriving DecidableEq

/-- The events one loop iteration emits under a given fault: an exception
aborts the iteration at the failing send (the `try` block wraps both
sends) and is swallowed by the handler. -/
def row_events (r : PreviewRow) (f : RowFault) : List OscEvent :=
  match f with
  | .ok => [.create r.snap_index, .sleep inter_command_delay_ms,
            .rename r.snap_index r.name, .sleep inter_command_delay_ms]
  | .fail_create => []
  | .fail_rename => [.create r.snap_index, .sleep inter_command_delay_ms]

/-- `created += 1` runs only when the whole `try` body succeeded. -/
def row_completed (f : RowFault) : Nat :=
  match f with
  | .ok => 1
  | _ => 0

/-- The send loop of `on_send`: the fault oracle `f` gives row `i`'s
fault.  Returns the event trace and the final `created` count. -/
def on_send : List PreviewRow → (Nat → RowFault) → List OscEvent × Nat
  | [], _ => ([], 0)
  | r :: rs, f =>
    let rest := on_send rs (fun i => f (i + 1))
    (row_events r (f 0) ++ rest.1, row_completed (f 0) + rest.2)

/-- Is an event a network command (as opposed to a wait)? -/
def is_command : OscEvent → Bool
  | .create _ => true
  | .rename _ _ => true
  | .sleep _ => false

theorem on_send_cons (r : PreviewRow) (rs : List PreviewRow) (f : Nat → RowFault) :
    on_send (r :: rs) f =
      (row_events r (f 0) ++ (on_send rs (fun i => f (i + 1))).1,
       row_completed (f 0) + (on_send rs (fun i => f (i + 1))).2) := rfl

/-- With no faults the loop emits each row's full
create–wait–rename–wait block, in row order, and counts every row. -/
theorem on_send_all_ok (rows : List PreviewRow) :
    on_send rows (fun _ => RowFault.ok) =
      (rows.flatMap (fun r => row_events r RowFault.ok), rows.length) := by
  induction rows with
  | nil => rfl
  | cons r rs ih =>
    simp only [on_send, List.flatMap_cons, List.length_cons]
    rw [ih]
    rw [Prod.mk.injEq]
    refine ⟨rfl, ?_⟩
    show 1 + rs.length = rs.length + 1
    omega

/-- A fault-free trace holds exactly two commands per row. -/
theorem count_commands (rows : List PreviewRow) :
    (rows.flatMap (fun r => row_events r RowFault.ok)).countP is_command =
      2 * rows.length := by
  induction rows with
  | nil => rfl
  | cons r rs ih =>
    rw [List.flatMap_cons, List.countP_append, ih]
    simp [row_events, is_command, List.countP_cons]
    omega

/-- Splitting the row list splits the trace and the count: the rows
before a failure never prevent the rows after it from being processed. -/
theorem on_send_append (xs ys : List PreviewRow) (f : Nat → RowFault) :
    on_send (xs ++ ys) f =
      ((on_send xs f).1 ++ (on_send ys (fun i => f (i + xs.length))).1,
       (on_send xs f).2 + (on_send ys (fun i => f (i + xs.length))).2) := by
  induction xs generalizing f with
  | nil => simp [on_send]
  | cons x xs ih =>
    rw [List.cons_append, on_send_cons, ih, on_send_cons]
    rw [Prod.mk.injEq]
    constructor
    · rw [List.append_assoc]
      congr 2
    · show row_completed (f 0) +
          ((on_send xs fun i => f (i + 1)).2 +
            (on_send ys fun i => f (i + xs.length + 1)).2) =
        row_completed (f 0) + (on_send xs fun i => f (i + 1)).2 +
          (on_send ys fun i => f (i + xs.length + 1)).2
      omega

/-- The returned count is the number of row indices whose iteration
raised no local error. -/
theorem on_send_count (rows : List PreviewRow) (f : Nat → RowFault) :
    (on_send rows f).2 =
      (List.range rows.length).countP (fun i => f i == RowFault.ok) := by
  induction rows generalizing f with
  | nil => rfl
  | cons r rs ih =>
    show row_completed (f 0) + (on_send rs (fun i => f (i + 1))).2 = _
    rw [ih, List.length_cons, List.range_succ_eq_map, List.countP_cons,
      List.countP_map]
    cases hf : f 0 <;>
      simp [row_completed, hf, Function.comp_def, Nat.succ_eq_add_one, Nat.add_comm]

/-- Claim C3: with no local errors the emitter issues exactly `2n`
commands strictly in row order — create then rename per row, each command
followed by the fixed delay — and in general the trace splits row by row
(an error on one row never prevents a later row's commands) and the
returned count is the number of rows that completed both commands without
a locally-detected error. -/
theorem emitter_order_count_isolation (rows xs ys : List PreviewRow)
    (f : Nat → RowFault) :
    on_send rows (fun _ => RowFault.ok) =
      (rows.flatMap (fun r => row_events r RowFault.ok), rows.length) ∧
    (rows.flatMap (fun r => row_events r RowFault.ok)).countP is_command =
      2 * rows.length ∧
    on_send (xs ++ ys) f =
      ((on_send xs f).1 ++ (on_send ys (fun i => f (i + xs.length))).1,
       (on_send xs f).2 + (on_send ys (fun i => f (i + xs.length))).2) ∧
    (on_send rows f).2 =
      (List.range rows.length).countP (fun i => f i == RowFault.ok) :=
  ⟨on_send_all_ok rows, count_commands rows, on_send_append xs ys f,
   on_send_count rows f⟩

/-- Counterexample to claim C4: a single row whose create send raises a
local error produces an empty trace — in particular the rename command is
not sent, contrary to the claim that the rename is always sent even when
create's send raises. -/
theorem rename_after_failed_create_cex :
    (on_send [⟨1, "Opening Song", 0⟩] (fun _ => RowFault.fail_create)).1 = [] ∧
    OscEvent.rename 0 "Opening Song" ∉
      (on_send [⟨1, "Opening Song", 0⟩] (fun _ => RowFault.fail_create)).1 :=
  ⟨rfl, by decide⟩

/-- Claim C4 as amended: when the create send of a row raises a local
error, the whole `try` block is abandoned, so the rename for that row is
NOT sent (the row fails as a unit, emitting no events and counting
nothing), while the remaining rows are processed exactly as if the failed
row were absent. -/
theorem rename_skipped_on_create_failure (r : PreviewRow)
    (rest : List PreviewRow) (f : Nat → RowFault)
    (h : f 0 = RowFault.fail_create) :
    row_events r (f 0) = [] ∧
    (on_send (r :: rest) f).1 = (on_send rest (fun i => f (i + 1))).1 ∧
    (on_send (r :: rest) f).2 = (on_send rest (fun i => f (i + 1))).2 := by
  refine ⟨by rw [h]; rfl, ?_, ?_⟩
  · show row_events r (f 0) ++ (on_send rest (fun i => f (i + 1))).1 = _
    rw [h]
    rfl
  · show row_completed (f 0) + (on_send rest (fun i => f (i + 1))).2 = _
    rw [h]
    exact Nat.zero_add _

/-- Witness for the amended C4: one row with a create-time fault, no
following rows. -/
theorem rename_skipped_on_create_failure_witness :
    row_events ⟨1, "Opening Song", 0⟩
        ((fun _ => RowFault.fail_create) 0) = [] ∧
    (on_send [⟨1, "Opening Song", 0⟩] (fun _ => RowFault.fail_create)).1 =
      (on_send ([] : List PreviewRow)
        (fun i => (fun _ => RowFault.fail_create) (i + 1))).1 ∧
    (on_send [⟨1, "Opening Song", 0⟩] (fun _ => RowFault.fail_create)).2 =
      (on_send ([] : List PreviewRow)
        (fun i => (fun _ => RowFault.fail_create) (i + 1))).2 :=
  rename_skipped_on_create_failure ⟨1, "Opening Song", 0⟩ []
    (fun _ => RowFault.fail_create) rfl

/-! ### Time Bucket Normalizer (`App.on_load_plan_times`, lines 482–503)

For each raw plan-time record the loader computes a display label
(`format_time_label`, a total function: every parse failure inside it is
caught) and tries to parse `starts_at` with `datetime.fromisoformat`
(after replacing a trailing `Z` by `+00:00`); on failure, or when
`starts_at` is falsy, the tuple's datetime is `None`.  The tuples are
stored unsorted; the listbox is then filled from
`sorted(self.plan_times, key=lambda x: x[2] or datetime.max)`, and an
empty tuple list is first replaced by a single `("default", "(default)",
None)` placeholder.

The embedding abstracts two library functions:
* `format_time_label` is total, so each record carries its resulting
  `label` directly;
* `datetime.fromisoformat` is abstracted by the record's `starts_at`
  field holding what the parse of the attribute string would yield:
  absent (falsy attribute), a raised `ValueError`, or a datetime that is
  timezone-aware (the string carried a UTC offset — e.g. the trailing
  `Z` the loader rewrites to `+00:00`) or naive, with `v` its comparable
  ordinal.  Python raises `TypeError` when an aware datetime is compared
  with a naive one, and `datetime.max` is naive; a comparison sort must
  compare some aware key with some naive key whenever both kinds occur,
  so `sorted` raises exactly when the keys mix awareness — the monadic
  stable insertion sort below raises on the same inputs and computes the
  same (stable) order when all keys are comparable. -/

/-- A parsed `datetime`: its awareness and a comparable ordinal. -/
structure PyDateTime where
  aware : Bool
  v : Nat
deriving DecidableEq

/-- Outcome of `datetime.fromisoformat` on a record's `starts_at`. -/
inductive StartsAtParse
  | absent
  | unparseable
  | parsed (dt : PyDateTime)
deriving DecidableEq

/-- One raw plan-time record as the loader sees it. -/
structure RawPlanTime where
  id : String
  label : String
  starts_at : StartsAtParse
deriving DecidableEq

/-- One tuple of `self.plan_times`: `(pt["id"], label, starts_at_dt)`.
(The Sequence Builder reads only the first two components, modelled
above as `PlanTimeEntry`.) -/
structure PlanTimeTuple where
  id : String
  label : String
  starts_at_dt : Option PyDateTime
deriving DecidableEq

/-- The `try`/`except` around `fromisoformat`: `None` on a falsy
attribute or a parse failure. -/
def parse_starts_at : StartsAtParse → Option PyDateTime
  | .parsed dt => some dt
  | _ => none

/-- The per-record loop: exactly one tuple is appended per record. -/
def build_plan_times (recs : List RawPlanTime) : List PlanTimeTuple :=
  recs.map (fun r => ⟨r.id, r.label, parse_starts_at r.starts_at⟩)

/-- `if not self.plan_times: self.plan_times = [("default", "(default)", None)]`. -/
def plan_times_or_default (l : List PlanTimeTuple) : List PlanTimeTuple :=
  if l = [] then [⟨"default", "(default)", none⟩] else l

/-- The value of the sort key `x[2] or datetime.max` (`None` is falsy;
`datetime.max` is offset-naive). -/
inductive SortKey
  | dt (d : PyDateTime)
  | dtMax
deriving DecidableEq

/-- `lambda x: x[2] or datetime.max`. -/
def sort_key (e : PlanTimeTuple) : SortKey :=
  match e.starts_at_dt with
  | some d => .dt d
  | none => .dtMax

/-- Python `<=` on datetimes: comparable only within one awareness kind;
comparing aware with naive raises `TypeError` (`datetime.max` is naive
and later than every parsed naive datetime). -/
def py_dt_le : SortKey → SortKey → Except Unit Bool
  | .dt a, .dt b => if a.aware = b.aware then .ok (decide (a.v ≤ b.v)) else .error ()
  | .dt a, .dtMax => if a.aware then .error () else .ok true
  | .dtMax, .dt b => if b.aware then .error () else .ok false
  | .dtMax, .dtMax => .ok true

/-- Stable insertion step under the fallible comparison. -/
def insertE (x : PlanTimeTuple) :
    List PlanTimeTuple → Except Unit (List PlanTimeTuple)
  | [] => .ok [x]
  | y :: ys => do
    let b ← py_dt_le (sort_key x) (sort_key y)
    if b then
      return x :: y :: ys
    else
      let r ← insertE x ys
      return y :: r

/-- `sorted(..., key=lambda x: x[2] or datetime.max)` as a stable sort
under the fallible comparison. -/
def sortE : List PlanTimeTuple → Except Unit (List PlanTimeTuple)
  | [] => .ok []
  | x :: xs => do
    let r ← sortE xs
    insertE x r

/-- The Time Bucket Normalizer's displayed output: the (defaulted)
tuple list sorted by instant. -/
def normalize_plan_times (recs : List RawPlanTime) :
    Except Unit (List PlanTimeTuple) :=
  sortE (plan_times_or_default (build_plan_times recs))

/-- Claim C6 (refuted — code bug): the claim says the normalizer emits
exactly one entry per input record and never fails on any combination of
present and missing instants; but (1) one record with a parsed
timezone-aware instant (any PCO `...Z` timestamp) plus one record with a
missing instant makes `sorted` compare the aware datetime with the naive
`datetime.max` and raise `TypeError`, crashing the load; (2) an empty
record list produces one `(default)` placeholder entry rather than zero
entries.  With uniformly aware instants the sort succeeds ascending, as
the claim intends. -/
theorem normalizer_mixed_instants_raise :
    normalize_plan_times
        [⟨"t1", "9:00 AM", .parsed ⟨true, 100⟩⟩,
         ⟨"t2", "Evening", .absent⟩] = .error () ∧
    normalize_plan_times ([] : List RawPlanTime) =
      .ok [⟨"default", "(default)", none⟩] ∧
    normalize_plan_times
        [⟨"t1", "9:00 AM", .parsed ⟨true, 100⟩⟩,
         ⟨"t2", "8:00 AM", .parsed ⟨true, 60⟩⟩] =
      .ok [⟨"t2", "8:00 AM", some ⟨true, 60⟩⟩,
           ⟨"t1", "9:00 AM", some ⟨true, 100⟩⟩] :=
  ⟨rfl, rfl, rfl⟩
